import Mathlib

/-!
Shallow embedding of the arena allocator in `src/arena.h`.

Addresses are modelled as `Int` (the C code works with `byte *` pointers and
`ptrdiff_t`/`uintptr_t` arithmetic; no wrap-around is exercised by the claims).
Byte memory is modelled as a total function `Int → Nat`.  C's truncating
division on `isize` is `Int.tdiv`; for a power-of-two `align`, the C padding
expression `-(uintptr_t)p & (align - 1)` equals the Euclidean remainder
`(-p) % align`.  `memset`/`memmove` become explicit memory transformers;
`memcpy` is only invoked by the source under a no-overlap guard, where it
coincides with `memmove`.
-/

/-- Byte memory: a total map from addresses to byte values. -/
def Mem : Type := Int → Nat

/-- Models `memset(p, 0, n)`. -/
def memsetz (m : Mem) (p n : Int) : Mem :=
  fun i => if p ≤ i ∧ i < p + n then 0 else m i

/-- Models `memmove(dst, src, n)`: the destination range receives the source
bytes as they were before the call (memmove copies as if through a buffer). -/
def memmove (m : Mem) (dst src n : Int) : Mem :=
  fun i => if dst ≤ i ∧ i < dst + n then m (src + (i - dst)) else m i

/-- `struct Arena { byte *beg; byte *end; void **jmpbuf; }`.  The `jmpbuf`
field only matters for whether a failure continuation is installed, so it is
modelled as a `Bool`. -/
structure Arena where
  beg : Int
  end_ : Int
  jmpbuf : Bool
deriving DecidableEq

/-- `typedef struct { unsigned mask; } ArenaFlag`. -/
structure ArenaFlag where
  mask : Nat
deriving DecidableEq

/-- `_NO_INIT = 1u << 0`. -/
def NO_INIT : ArenaFlag := ⟨1⟩

/-- `_OOM_NULL = 1u << 1`. -/
def OOM_NULL : ArenaFlag := ⟨2⟩

/-- `_PUSH_END = 1u << 2`. -/
def PUSH_END : ArenaFlag := ⟨4⟩

/-- Result of `arena_alloc`: a returned pointer with the updated arena and
memory, a `NULL` return (arena untouched), or a `longjmp` escape. -/
inductive AllocResult where
  | ok (ptr : Int) (a : Arena) (mem : Mem)
  | oomNull (a : Arena) (mem : Mem)
  | oomJmp (a : Arena) (mem : Mem)

/-- Whether the allocation returned a pointer. -/
def AllocResult.isOk : AllocResult → Bool
  | .ok _ _ _ => true
  | .oomNull _ _ => false
  | .oomJmp _ _ => false

/-- The returned pointer, when there is one. -/
def AllocResult.ptrOf : AllocResult → Option Int
  | .ok p _ _ => some p
  | .oomNull _ _ => none
  | .oomJmp _ _ => none

/-- The arena state after the call (unchanged on either failure path). -/
def AllocResult.arenaOf : AllocResult → Arena
  | .ok _ a _ => a
  | .oomNull a _ => a
  | .oomJmp a _ => a

/-- The memory after the call (unchanged on either failure path). -/
def AllocResult.memOf : AllocResult → Mem
  | .ok _ _ m => m
  | .oomNull _ m => m
  | .oomJmp _ m => m

/-- `arena_alloc(arena, size, align, count, flags)` from `src/arena.h`:

    byte *current = arena->beg;
    isize avail = arena->end - current;
    isize padding = -(uintptr_t)current & (align - 1);
    if (count > (avail - padding) / size) goto handle_oom;
    isize total_size = size * count;
    if (flags.mask & _PUSH_END) { arena->end -= total_size; current = arena->end; }
    else { arena->beg += padding + total_size; current += padding; }
    return flags.mask & _NO_INIT ? current : memset(current, 0, total_size);
    handle_oom:
    if (flags.mask & _OOM_NULL || !arena->jmpbuf) return NULL;
    longjmp(...);
-/
def arena_alloc (arena : Arena) (mem : Mem) (size align count : Int)
    (flags : ArenaFlag) : AllocResult :=
  let current := arena.beg
  let avail := arena.end_ - current
  let padding := (-current) % align
  if count > Int.tdiv (avail - padding) size then
    if flags.mask &&& OOM_NULL.mask ≠ 0 ∨ arena.jmpbuf = false then
      .oomNull arena mem
    else
      .oomJmp arena mem
  else
    let total := size * count
    if flags.mask &&& PUSH_END.mask ≠ 0 then
      let ptr := arena.end_ - total
      .ok ptr { arena with end_ := ptr }
        (if flags.mask &&& NO_INIT.mask ≠ 0 then mem else memsetz mem ptr total)
    else
      let ptr := current + padding
      .ok ptr { arena with beg := arena.beg + padding + total }
        (if flags.mask &&& NO_INIT.mask ≠ 0 then mem else memsetz mem ptr total)

/-- The all-zero memory, used for concrete witnesses. -/
def zmem : Mem := fun _ => 0

/-- Identity memory, used for concrete witnesses about byte contents. -/
def idmem : Mem := fun i => i.toNat

/-- `ArenaOOM(A)` from `src/arena.h`:

    a_->jmpbuf = New(a_, void *, _JBLEN, OOM_NULL);
    !a_->jmpbuf || setjmp((void *)a_->jmpbuf);

`New(a, void *, _JBLEN, OOM_NULL)` is `arena_alloc(a, sizeof(void *),
_Alignof(void *), _JBLEN, OOM_NULL)` with `sizeof(void *) = _Alignof(void *)
= 8` and `_JBLEN = 5`.  `resuming` is true when control re-enters through
`longjmp` (setjmp returns nonzero); the Bool result is the macro's value. -/
def ArenaOOM (a : Arena) (mem : Mem) (resuming : Bool) : Bool × Arena × Mem :=
  match arena_alloc a mem 8 8 5 OOM_NULL with
  | .ok _ a' m' => (resuming, { a' with jmpbuf := true }, m')
  | .oomNull a' m' => (true, { a' with jmpbuf := false }, m')
  | .oomJmp a' m' => (true, { a' with jmpbuf := false }, m')

/-- `PushArena(arena)` from `src/arena.h`:

    Arena tail = *arena;
    tail.beg = New(arena, byte, (arena->end - arena->beg) / 2,
                   (ArenaFlag){_NO_INIT | _PUSH_END});
    return tail;

Returns `(tail, parent after the call, memory)`.  On a `NULL` return the
tail's `beg` is the null pointer, modelled as address 0. -/
def PushArena (a : Arena) (mem : Mem) : Arena × Arena × Mem :=
  match arena_alloc a mem 1 1 (Int.tdiv (a.end_ - a.beg) 2) ⟨5⟩ with
  | .ok p a' m' => ({ a with beg := p }, a', m')
  | .oomNull a' m' => ({ a with beg := 0 }, a', m')
  | .oomJmp a' m' => ({ a with beg := 0 }, a', m')

/-- `PopArena(head, tail)` from `src/arena.h`: `head->end = tail->end;`. -/
def PopArena (head tail : Arena) : Arena :=
  { head with end_ := tail.end_ }

/-- An `arena_alloc` request, used to quantify over intervening allocations. -/
structure Request where
  size : Int
  align : Int
  count : Int
  flags : ArenaFlag

/-- The arena/memory state after one `arena_alloc` call (the failure paths
leave both unchanged; on `longjmp` the arena fields are likewise untouched). -/
def applyAlloc (am : Arena × Mem) (q : Request) : Arena × Mem :=
  match arena_alloc am.1 am.2 q.size q.align q.count q.flags with
  | .ok _ a m => (a, m)
  | .oomNull a m => (a, m)
  | .oomJmp a m => (a, m)

/-- State after a sequence of `arena_alloc` calls. -/
def runAllocs (am : Arena × Mem) (qs : List Request) : Arena × Mem :=
  qs.foldl applyAlloc am

/-- The slice header read and written by `slice_grow` via `memcpy`:
`{ void *data; isize len; isize cap; }`. -/
structure Slice where
  data : Int
  len : Int
  cap : Int
deriving DecidableEq

/-- Result of `slice_grow`: the updated header/arena/memory, or a `longjmp`
escape (in which case the header write-back never executes). -/
inductive GrowResult where
  | ok (s : Slice) (a : Arena) (mem : Mem)
  | escape (a : Arena) (mem : Mem)

/-- `slice_grow(slice, size, align, a)` from `src/arena.h`:

    const int grow = MAX_ALIGN;            // 16 on x86-64
    if (!slicemeta.cap) {
      slicemeta.cap = grow;
      slicemeta.data = arena_alloc(a, size, align, slicemeta.cap, NO_INIT);
    } else if ((uintptr_t)slicemeta.data == (uintptr_t)a->beg - size * slicemeta.cap) {
      arena_alloc(a, size, 1, grow, NO_INIT);
      slicemeta.cap += grow;
    } else {
      slicemeta.cap += slicemeta.cap / 2;
      void *dest = arena_alloc(a, size, align, slicemeta.cap, NO_INIT);
      memmove(dest, slicemeta.data, size * slicemeta.len);
      slicemeta.data = dest;
    }

A `NULL` return from the inner allocation is stored (or discarded) exactly as
in the source. -/
def slice_grow (s : Slice) (size align : Int) (a : Arena) (mem : Mem) :
    GrowResult :=
  let grow : Int := 16
  if s.cap = 0 then
    match arena_alloc a mem size align grow NO_INIT with
    | .ok p a' m' => .ok { s with cap := grow, data := p } a' m'
    | .oomNull a' m' => .ok { s with cap := grow, data := 0 } a' m'
    | .oomJmp a' m' => .escape a' m'
  else if s.data = a.beg - size * s.cap then
    match arena_alloc a mem size 1 grow NO_INIT with
    | .ok _ a' m' => .ok { s with cap := s.cap + grow } a' m'
    | .oomNull a' m' => .ok { s with cap := s.cap + grow } a' m'
    | .oomJmp a' m' => .escape a' m'
  else
    let newcap := s.cap + Int.tdiv s.cap 2
    match arena_alloc a mem size align newcap NO_INIT with
    | .ok p a' m' =>
        .ok { s with cap := newcap, data := p } a' (memmove m' p s.data (size * s.len))
    | .oomNull a' m' =>
        .ok { s with cap := newcap, data := 0 } a' (memmove m' 0 s.data (size * s.len))
    | .oomJmp a' m' => .escape a' m'

/-- `Push(S, A)` from `src/arena.h`:

    if (s_->len >= s_->cap) slice_grow(s_, sizeof(*s_->data), ..., (A));
    s_->data + s_->len++;

Returns `(slot address, updated slice, arena, memory)`; `none` models the
`longjmp` escape out of the growing allocation.  The slot address of element
`i` is `data + size * i`. -/
def Push (s : Slice) (size align : Int) (a : Arena) (mem : Mem) :
    Option (Int × Slice × Arena × Mem) :=
  if s.cap ≤ s.len then
    match slice_grow s size align a mem with
    | .escape _ _ => none
    | .ok s' a' m' =>
        some (s'.data + size * s'.len, { s' with len := s'.len + 1 }, a', m')
  else
    some (s.data + size * s.len, { s with len := s.len + 1 }, a, mem)

/-- `typedef struct astr { char *data; ptrdiff_t len; } astr`. -/
structure astr where
  data : Int
  len : Int
deriving DecidableEq

/-- `astrclone(arena, s)` from `src/arena.h`:

    astr s2 = s;
    if (!s.len || s.data + s.len == (char *)arena->beg) return s2;
    s2.data = New(arena, char, s.len, NO_INIT);
    if (s2.data >= s.data + s.len || s2.data + s2.len <= s.data)
      memcpy(s2.data, s.data, s.len);
    else
      memmove(s2.data, s.data, s.len);
    return s2;

On the guarded branch the ranges are disjoint, where `memcpy` coincides with
`memmove`, so both branches are the `memmove` transformer.  `none` models the
`longjmp` escape out of the allocation; a `NULL` return stores address 0. -/
def astrclone (a : Arena) (mem : Mem) (s : astr) : Option (astr × Arena × Mem) :=
  if s.len = 0 ∨ s.data + s.len = a.beg then
    some (s, a, mem)
  else
    match arena_alloc a mem 1 1 s.len NO_INIT with
    | .ok p a' m' => some ({ data := p, len := s.len }, a', memmove m' p s.data s.len)
    | .oomNull a' m' => some ({ data := 0, len := s.len }, a', memmove m' 0 s.data s.len)
    | .oomJmp _ _ => none

/-- `astrconcat(arena, head, tail)` from `src/arena.h`:

    astr ret = head;
    if (head.len == 0)
      return tail.len && tail.data + tail.len == (char *)arena->beg
             ? tail : astrclone(arena, tail);
    if (head.data + head.len != (char *)arena->beg)
      ret = astrclone(arena, head);
    ret.len += astrclone(arena, tail).len;
    return ret;
-/
def astrconcat (a : Arena) (mem : Mem) (head tail : astr) :
    Option (astr × Arena × Mem) :=
  if head.len = 0 then
    if tail.len ≠ 0 ∧ tail.data + tail.len = a.beg then
      some (tail, a, mem)
    else
      astrclone a mem tail
  else
    match (if head.data + head.len ≠ a.beg then astrclone a mem head
           else some (head, a, mem)) with
    | none => none
    | some (ret, a1, m1) =>
        match astrclone a1 m1 tail with
        | none => none
        | some (t2, a2, m2) => some ({ ret with len := ret.len + t2.len }, a2, m2)

/-- For a successful division check with a positive count, the padded total
fits: this is the arithmetic heart of the division-based overflow check. -/
lemma tdiv_check_mul_le {x size count : Int} (hs : 0 < size) (hc : 1 ≤ count)
    (h : count ≤ Int.tdiv x size) : size * count ≤ x := by
  rcases le_or_lt 0 x with hx | hx
  · rw [Int.tdiv_eq_ediv hx (le_of_lt hs)] at h
    have := (Int.le_ediv_iff_mul_le hs).mp h
    linarith [this]
  · exfalso
    have hnn : 0 ≤ -x := by linarith
    have h1 : 0 ≤ Int.tdiv (-x) size := Int.tdiv_nonneg hnn (le_of_lt hs)
    rw [Int.neg_tdiv] at h1
    linarith

/-- A negative numerator gives a nonpositive truncating quotient. -/
lemma tdiv_neg_nonpos {x size : Int} (hx : x < 0) (hs : 0 < size) :
    Int.tdiv x size ≤ 0 := by
  have hnn : 0 ≤ -x := by linarith
  have h1 : 0 ≤ Int.tdiv (-x) size := Int.tdiv_nonneg hnn (le_of_lt hs)
  rw [Int.neg_tdiv] at h1
  linarith

/-- Unfolding of `arena_alloc` on the exhaustion path: the `goto handle_oom`
branch, before any mutation of the arena. -/
lemma arena_alloc_oom (a : Arena) (mem : Mem) (size align count : Int)
    (flags : ArenaFlag)
    (h : count > Int.tdiv ((a.end_ - a.beg) - (-a.beg) % align) size) :
    arena_alloc a mem size align count flags =
      if flags.mask &&& OOM_NULL.mask ≠ 0 ∨ a.jmpbuf = false then
        .oomNull a mem
      else
        .oomJmp a mem := by
  simp only [arena_alloc]
  rw [if_pos h]

/-- Unfolding of `arena_alloc` on the successful forward (no `_PUSH_END`)
path: the cursor advances by `padding + size * count`. -/
lemma arena_alloc_ok_fwd (a : Arena) (mem : Mem) (size align count : Int)
    (flags : ArenaFlag)
    (h : ¬ count > Int.tdiv ((a.end_ - a.beg) - (-a.beg) % align) size)
    (hf : flags.mask &&& PUSH_END.mask = 0) :
    arena_alloc a mem size align count flags =
      .ok (a.beg + (-a.beg) % align)
        { a with beg := a.beg + (-a.beg) % align + size * count }
        (if flags.mask &&& NO_INIT.mask ≠ 0 then mem
         else memsetz mem (a.beg + (-a.beg) % align) (size * count)) := by
  simp only [arena_alloc]
  rw [if_neg h, if_neg (show ¬ flags.mask &&& PUSH_END.mask ≠ 0 from fun hn => hn hf)]

/-- Unfolding of `arena_alloc` on the successful `_PUSH_END` path: the limit
moves down by `size * count` and the new limit is returned. -/
lemma arena_alloc_ok_push (a : Arena) (mem : Mem) (size align count : Int)
    (flags : ArenaFlag)
    (h : ¬ count > Int.tdiv ((a.end_ - a.beg) - (-a.beg) % align) size)
    (hf : flags.mask &&& PUSH_END.mask ≠ 0) :
    arena_alloc a mem size align count flags =
      .ok (a.end_ - size * count) { a with end_ := a.end_ - size * count }
        (if flags.mask &&& NO_INIT.mask ≠ 0 then mem
         else memsetz mem (a.end_ - size * count) (size * count)) := by
  simp only [arena_alloc]
  rw [if_neg h, if_pos hf]

/-- A power of two is positive. -/
lemma pow2_pos {align : Int} (hal : ∃ k : Nat, align = 2 ^ k) : 0 < align := by
  obtain ⟨k, hk⟩ := hal
  rw [hk]
  positivity

/-- C1 (corrected): with `elementSize > 0`, `count ≥ 0` and a power-of-two
alignment, `arena_alloc` reports exhaustion exactly when
`count > (avail - padding) / size` under C truncating division; otherwise it
succeeds, and without `_PUSH_END` the cursor advances by
`padding + size * count`; and for `count ≥ 1` a request whose padded size
exceeds the available space never returns a pointer. -/
theorem c1_alloc_boundary (a : Arena) (mem : Mem) (size align count : Int)
    (flags : ArenaFlag) (hs : 0 < size) (hc : 0 ≤ count)
    (hal : ∃ k : Nat, align = 2 ^ k) :
    ((arena_alloc a mem size align count flags).isOk = false ↔
      count > Int.tdiv ((a.end_ - a.beg) - (-a.beg) % align) size) ∧
    (count ≤ Int.tdiv ((a.end_ - a.beg) - (-a.beg) % align) size →
      flags.mask &&& PUSH_END.mask = 0 →
      (arena_alloc a mem size align count flags).arenaOf.beg
          = a.beg + (-a.beg) % align + size * count ∧
      (arena_alloc a mem size align count flags).arenaOf.end_ = a.end_) ∧
    (1 ≤ count → (-a.beg) % align + size * count > a.end_ - a.beg →
      (arena_alloc a mem size align count flags).ptrOf = none) := by
  by_cases hchk : count > Int.tdiv ((a.end_ - a.beg) - (-a.beg) % align) size
  · refine ⟨⟨fun _ => hchk, fun _ => ?_⟩, fun hle _ => absurd hchk (not_lt.mpr hle), fun _ _ => ?_⟩
    · rw [arena_alloc_oom a mem size align count flags hchk]
      split <;> rfl
    · rw [arena_alloc_oom a mem size align count flags hchk]
      split <;> rfl
  · constructor
    · constructor
      · intro hfail
        exfalso
        by_cases hf : flags.mask &&& PUSH_END.mask ≠ 0
        · rw [arena_alloc_ok_push a mem size align count flags hchk hf] at hfail
          simp [AllocResult.isOk] at hfail
        · rw [arena_alloc_ok_fwd a mem size align count flags hchk (not_ne_iff.mp hf)] at hfail
          simp [AllocResult.isOk] at hfail
      · intro h
        exact absurd h hchk
    · constructor
      · intro _ hf
        rw [arena_alloc_ok_fwd a mem size align count flags hchk hf]
        exact ⟨rfl, rfl⟩
      · intro hc1 hover
        exfalso
        have hle := not_lt.mp hchk
        have := tdiv_check_mul_le hs hc1 hle
        linarith

/-- C1 witness: a 16-byte arena, two 4-byte elements at alignment 4: the
check passes and the cursor advances to 8. -/
theorem c1_alloc_boundary_witness :
    (arena_alloc ⟨0, 16, false⟩ zmem 4 4 2 ⟨0⟩).arenaOf.beg = 0 + (-(0:Int)) % 4 + 4 * 2 ∧
    (arena_alloc ⟨0, 16, false⟩ zmem 4 4 2 ⟨0⟩).arenaOf.end_ = 16 := by
  have h := c1_alloc_boundary ⟨0, 16, false⟩ zmem 4 4 2 ⟨0⟩ (by decide) (by decide) ⟨2, rfl⟩
  exact h.2.1 (by decide) rfl

/-- C1 counterexample: `beg = 4`, `end = 5`, `align = 8`, `size = 4`,
`count = 0`: the padding (4) alone exceeds the available space (1), yet the
call returns a pointer (and even advances the cursor past the limit), because
`(1 - 4) tdiv 4 = 0` under C truncating division so `0 > 0` is false. -/
theorem c1_cx :
    (arena_alloc ⟨4, 5, false⟩ zmem 4 8 0 ⟨0⟩).ptrOf = some 8 ∧
    (-(4:Int)) % 8 + 4 * 0 > (5:Int) - 4 := by
  constructor
  · rfl
  · decide

/-- C2 (confirmed): when the division check reports exhaustion and either the
`_OOM_NULL` flag is set or no failure continuation is installed, `arena_alloc`
returns `NULL` with the arena (and memory) exactly as before the call. -/
theorem c2_oom_null_unchanged (a : Arena) (mem : Mem) (size align count : Int)
    (flags : ArenaFlag)
    (hoom : count > Int.tdiv ((a.end_ - a.beg) - (-a.beg) % align) size)
    (hpolicy : flags.mask &&& OOM_NULL.mask ≠ 0 ∨ a.jmpbuf = false) :
    arena_alloc a mem size align count flags = .oomNull a mem := by
  rw [arena_alloc_oom a mem size align count flags hoom, if_pos hpolicy]

/-- C2 witness: allocating 1 byte from an exhausted arena with no installed
continuation returns the failure indicator and leaves the state unchanged. -/
theorem c2_oom_null_unchanged_witness :
    arena_alloc ⟨0, 0, false⟩ zmem 1 1 1 ⟨0⟩ = .oomNull ⟨0, 0, false⟩ zmem :=
  c2_oom_null_unchanged ⟨0, 0, false⟩ zmem 1 1 1 ⟨0⟩ (by decide) (Or.inr rfl)

/-- C9 (corrected): starting from `beg ≤ end`, any `arena_alloc` without
`_PUSH_END`, with `size > 0`, power-of-two alignment and `count ≥ 1`, leaves
`beg ≤ end` (failures leave the arena untouched; successes fit under the
limit).  The `count = 0` case is excluded: see the counterexample. -/
theorem c9_cursor_bound (a : Arena) (mem : Mem) (size align count : Int)
    (flags : ArenaFlag) (hbe : a.beg ≤ a.end_) (hs : 0 < size)
    (hal : ∃ k : Nat, align = 2 ^ k) (hc : 1 ≤ count)
    (hf : flags.mask &&& PUSH_END.mask = 0) :
    (arena_alloc a mem size align count flags).arenaOf.beg ≤
      (arena_alloc a mem size align count flags).arenaOf.end_ := by
  have hal0 : (0:Int) < align := pow2_pos hal
  by_cases hchk : count > Int.tdiv ((a.end_ - a.beg) - (-a.beg) % align) size
  · rw [arena_alloc_oom a mem size align count flags hchk]
    split <;> exact hbe
  · rw [arena_alloc_ok_fwd a mem size align count flags hchk hf]
    have hle := not_lt.mp hchk
    have := tdiv_check_mul_le hs hc hle
    simp only [AllocResult.arenaOf]
    linarith

/-- C9 witness: a full-width allocation stays exactly at the limit. -/
theorem c9_cursor_bound_witness :
    (arena_alloc ⟨0, 16, false⟩ zmem 4 4 4 ⟨0⟩).arenaOf.beg ≤
      (arena_alloc ⟨0, 16, false⟩ zmem 4 4 4 ⟨0⟩).arenaOf.end_ :=
  c9_cursor_bound ⟨0, 16, false⟩ zmem 4 4 4 ⟨0⟩ (by decide) (by decide)
    ⟨2, rfl⟩ (by decide) rfl

/-- C9 counterexample: `beg = 12 ≤ end = 13`, `size = 4`, `align = 8`,
`count = 0`, no `_PUSH_END`: the call succeeds and moves the cursor to 16,
past the limit 13, because the padding (4) exceeds the single available byte
but `(1 - 4) tdiv 4 = 0` is not below `count = 0`. -/
theorem c9_cx :
    (arena_alloc ⟨12, 13, false⟩ zmem 4 8 0 ⟨0⟩).isOk = true ∧
    (arena_alloc ⟨12, 13, false⟩ zmem 4 8 0 ⟨0⟩).arenaOf.beg = 16 ∧
    (arena_alloc ⟨12, 13, false⟩ zmem 4 8 0 ⟨0⟩).arenaOf.end_ = 13 ∧
    ¬ ((16:Int) ≤ 13) := by
  refine ⟨rfl, rfl, rfl, by decide⟩

/-- C3 (corrected): a successful `arena_alloc` without `_PUSH_END` returns an
address that is a multiple of the requested power-of-two alignment (the cursor
plus its alignment padding); with `_PUSH_END` the returned address is
`end - size * count`, which ignores the requested alignment. -/
theorem c3_alignment (a : Arena) (mem : Mem) (size align count : Int)
    (flags : ArenaFlag) (p : Int) (a' : Arena) (m' : Mem)
    (hal : ∃ k : Nat, align = 2 ^ k)
    (hok : arena_alloc a mem size align count flags = .ok p a' m') :
    (flags.mask &&& PUSH_END.mask = 0 → p % align = 0) ∧
    (flags.mask &&& PUSH_END.mask ≠ 0 → p = a.end_ - size * count) := by
  by_cases hchk : count > Int.tdiv ((a.end_ - a.beg) - (-a.beg) % align) size
  · rw [arena_alloc_oom a mem size align count flags hchk] at hok
    split at hok <;> cases hok
  · constructor
    · intro hf
      rw [arena_alloc_ok_fwd a mem size align count flags hchk hf] at hok
      simp only [AllocResult.ok.injEq] at hok
      obtain ⟨hp, -, -⟩ := hok
      rw [← hp, Int.add_emod, Int.emod_emod_of_dvd _ dvd_rfl, ← Int.add_emod]
      simp
    · intro hf
      rw [arena_alloc_ok_push a mem size align count flags hchk hf] at hok
      simp only [AllocResult.ok.injEq] at hok
      exact hok.1.symm

/-- C3 witness: cursor at address 3, alignment 4: the call returns pointer 4,
a multiple of 4. -/
theorem c3_alignment_witness :
    (arena_alloc ⟨3, 20, false⟩ zmem 1 4 2 ⟨0⟩).ptrOf = some 4 ∧ (4:Int) % 4 = 0 :=
  ⟨rfl, (c3_alignment ⟨3, 20, false⟩ zmem 1 4 2 ⟨0⟩ 4 ⟨6, 20, false⟩
    (memsetz zmem 4 2) ⟨2, rfl⟩ rfl).1 rfl⟩

/-- C3 counterexample: a successful `_PUSH_END` allocation of one byte at
requested alignment 8 from `end = 7` returns address 6, which is not a
multiple of 8 — the push-from-end path never aligns the returned address. -/
theorem c3_cx :
    (arena_alloc ⟨0, 7, false⟩ zmem 1 8 1 ⟨4⟩).ptrOf = some 6 ∧
    ¬ ((6:Int) % 8 = 0) := by
  exact ⟨rfl, by decide⟩

/-- C4 (corrected): the growth direction of `arena_alloc` is decided by the
`_PUSH_END` flag, not by the relative order of cursor and limit: without the
flag a success advances `beg` (monotonically upward) and leaves `end` fixed;
with the flag a success leaves `beg` fixed and lowers `end`; and when the
cursor is above the limit every request with `count ≥ 1` fails. -/
theorem c4_direction (a : Arena) (mem : Mem) (size align count : Int)
    (flags : ArenaFlag) (p : Int) (a' : Arena) (m' : Mem) (hs : 0 < size)
    (hc : 0 ≤ count) (hal : ∃ k : Nat, align = 2 ^ k) :
    (arena_alloc a mem size align count flags = .ok p a' m' →
      (flags.mask &&& PUSH_END.mask = 0 →
        a.beg ≤ a'.beg ∧ a'.beg = a.beg + (-a.beg) % align + size * count ∧
        a'.end_ = a.end_) ∧
      (flags.mask &&& PUSH_END.mask ≠ 0 →
        a'.beg = a.beg ∧ a'.end_ = a.end_ - size * count)) ∧
    (a.end_ < a.beg → 1 ≤ count →
      (arena_alloc a mem size align count flags).isOk = false) := by
  have hal0 : (0:Int) < align := pow2_pos hal
  have hpad : 0 ≤ (-a.beg) % align := Int.emod_nonneg _ (ne_of_gt hal0)
  constructor
  · intro hok
    by_cases hchk : count > Int.tdiv ((a.end_ - a.beg) - (-a.beg) % align) size
    · rw [arena_alloc_oom a mem size align count flags hchk] at hok
      split at hok <;> cases hok
    · constructor
      · intro hf
        rw [arena_alloc_ok_fwd a mem size align count flags hchk hf] at hok
        simp only [AllocResult.ok.injEq] at hok
        obtain ⟨-, ha, -⟩ := hok
        rw [← ha]
        have hmul : 0 ≤ size * count := mul_nonneg (le_of_lt hs) hc
        exact ⟨by simp only []; linarith, rfl, rfl⟩
      · intro hf
        rw [arena_alloc_ok_push a mem size align count flags hchk hf] at hok
        simp only [AllocResult.ok.injEq] at hok
        obtain ⟨-, ha, -⟩ := hok
        rw [← ha]
        exact ⟨rfl, rfl⟩
  · intro hrev hc1
    have hneg : (a.end_ - a.beg) - (-a.beg) % align < 0 := by linarith
    have hq := tdiv_neg_nonpos hneg hs
    have hchk : count > Int.tdiv ((a.end_ - a.beg) - (-a.beg) % align) size := by
      linarith
    rw [arena_alloc_oom a mem size align count flags hchk]
    split <;> rfl

/-- C4 witness: a successful forward allocation advances the cursor from 0 to
8 and leaves the limit at 16. -/
theorem c4_direction_witness :
    ((⟨0, 16, false⟩ : Arena).beg ≤ (⟨8, 16, false⟩ : Arena).beg) ∧
    ((⟨8, 16, false⟩ : Arena).end_ = (⟨0, 16, false⟩ : Arena).end_) := by
  have h := (c4_direction ⟨0, 16, false⟩ zmem 4 4 2 ⟨0⟩ 0 ⟨8, 16, false⟩
    (memsetz zmem 0 8) (by decide) (by decide) ⟨2, rfl⟩).1 rfl
  exact ⟨(h.1 rfl).1, (h.1 rfl).2.2⟩

/-- C4 counterexample: with `cursor = 0 < limit = 8` a successful allocation
carrying `_NO_INIT | _PUSH_END` leaves the cursor at 0 and moves the limit to
6 — the direction came from the flag, the cursor did not bump upward, and the
limit of this top-level Region changed. -/
theorem c4_cx :
    (arena_alloc ⟨0, 8, false⟩ zmem 1 1 2 ⟨5⟩).isOk = true ∧
    (arena_alloc ⟨0, 8, false⟩ zmem 1 1 2 ⟨5⟩).arenaOf.beg = 0 ∧
    (arena_alloc ⟨0, 8, false⟩ zmem 1 1 2 ⟨5⟩).arenaOf.end_ = 6 ∧
    ((0:Int) < 8 ∧ ¬ ((6:Int) = 8)) := by
  refine ⟨rfl, rfl, rfl, by decide, by decide⟩

/-- On any failure path `arena_alloc` hands back the arena and memory
unchanged. -/
lemma arena_alloc_oomNull_eq (a : Arena) (mem : Mem) (size align count : Int)
    (flags : ArenaFlag) (a' : Arena) (m' : Mem)
    (h : arena_alloc a mem size align count flags = .oomNull a' m') :
    a' = a ∧ m' = mem := by
  simp only [arena_alloc] at h
  split at h
  · split at h
    · injection h with h1 h2
      exact ⟨h1.symm, h2.symm⟩
    · exact AllocResult.noConfusion h
  · split at h <;> exact AllocResult.noConfusion h

/-- C5 (corrected): `ArenaOOM` returns `false` exactly when a fresh install of
the continuation succeeded and the call is not resuming after an escape; it
returns `true` when resuming or when the registration allocation failed, in
which case the arena is unchanged except for the cleared continuation slot.
The registration is a soft-fail (`OOM_NULL`) allocation of a fixed 5-pointer
slot and therefore never escapes. -/
theorem c5_arenaoom (a : Arena) (mem : Mem) (resuming : Bool) :
    ((ArenaOOM a mem resuming).1 = false ↔
      (ArenaOOM a mem resuming).2.1.jmpbuf = true ∧ resuming = false) ∧
    ((arena_alloc a mem 8 8 5 OOM_NULL).isOk = false →
      (ArenaOOM a mem resuming).1 = true ∧
      (ArenaOOM a mem resuming).2.1 = { a with jmpbuf := false }) ∧
    (∀ a' m', arena_alloc a mem 8 8 5 OOM_NULL ≠ .oomJmp a' m') := by
  refine ⟨?_, ?_, ?_⟩
  · rcases hE : arena_alloc a mem 8 8 5 OOM_NULL with ⟨p, a', m'⟩ | ⟨a', m'⟩ | ⟨a', m'⟩ <;>
      simp [ArenaOOM, hE]
  · intro hfail
    rcases hE : arena_alloc a mem 8 8 5 OOM_NULL with ⟨p, a', m'⟩ | ⟨a', m'⟩ | ⟨a', m'⟩
    · rw [hE] at hfail
      simp [AllocResult.isOk] at hfail
    · obtain ⟨ha, -⟩ := arena_alloc_oomNull_eq a mem 8 8 5 OOM_NULL a' m' hE
      subst ha
      simp [ArenaOOM, hE]
    · exfalso
      revert hE
      simp only [arena_alloc]
      split
      · rw [if_pos (Or.inl (by decide : OOM_NULL.mask &&& OOM_NULL.mask ≠ 0))]
        exact fun h => AllocResult.noConfusion h
      · split <;> exact fun h => AllocResult.noConfusion h
  · intro a' m'
    simp only [arena_alloc]
    split
    · rw [if_pos (Or.inl (by decide : OOM_NULL.mask &&& OOM_NULL.mask ≠ 0))]
      exact fun h => AllocResult.noConfusion h
    · split <;> exact fun h => AllocResult.noConfusion h

/-- C5 witness: registering against a zero-capacity arena fails the soft-fail
slot allocation; the macro yields `true` and the arena is unchanged with no
continuation installed. -/
theorem c5_arenaoom_witness :
    (ArenaOOM ⟨0, 0, false⟩ zmem false).1 = true ∧
    (ArenaOOM ⟨0, 0, false⟩ zmem false).2.1 = ⟨0, 0, false⟩ :=
  (c5_arenaoom ⟨0, 0, false⟩ zmem false).2.1 (by decide)

/-- C5 counterexample: on a 100-byte arena the fresh install succeeds (the
continuation is recorded) yet `ArenaOOM` returns `false`, not `true` — the
claim's polarity is inverted relative to the code
(`!a_->jmpbuf || setjmp(...)` is 0 on a successful fresh install). -/
theorem c5_cx :
    (ArenaOOM ⟨0, 100, false⟩ zmem false).1 = false ∧
    (ArenaOOM ⟨0, 100, false⟩ zmem false).2.1.jmpbuf = true := by
  refine ⟨rfl, rfl⟩

/-- With a forward arena (`beg ≤ end`), `PushArena` carves half of the
remaining space from the top: the tail covers `[end - half, end)` and the
parent's limit drops to `end - half`; memory is untouched (`_NO_INIT`). -/
lemma PushArena_eq (a : Arena) (mem : Mem) (h : a.beg ≤ a.end_) :
    PushArena a mem =
      ({ a with beg := a.end_ - Int.tdiv (a.end_ - a.beg) 2 },
       { a with end_ := a.end_ - Int.tdiv (a.end_ - a.beg) 2 }, mem) := by
  have havail : (0:Int) ≤ a.end_ - a.beg := by linarith
  have hhalf : Int.tdiv (a.end_ - a.beg) 2 ≤ a.end_ - a.beg := by
    rw [Int.tdiv_eq_ediv havail (by norm_num)]
    exact Int.ediv_le_self _ havail
  have hchk : ¬ (Int.tdiv (a.end_ - a.beg) 2 >
      Int.tdiv ((a.end_ - a.beg) - (-a.beg) % 1) 1) := by
    simp only [Int.emod_one, sub_zero, Int.tdiv_one]
    exact not_lt.mpr hhalf
  have hni : ((⟨5⟩ : ArenaFlag).mask &&& NO_INIT.mask ≠ 0) := by decide
  unfold PushArena
  rw [arena_alloc_ok_push a mem 1 1 (Int.tdiv (a.end_ - a.beg) 2) ⟨5⟩ hchk (by decide)]
  simp [hni, one_mul]

/-- The arena after `arena_alloc` without `_PUSH_END` keeps its limit. -/
lemma arena_alloc_end_eq (a : Arena) (mem : Mem) (size align count : Int)
    (flags : ArenaFlag) (hf : flags.mask &&& PUSH_END.mask = 0) :
    (arena_alloc a mem size align count flags).arenaOf.end_ = a.end_ := by
  by_cases hchk : count > Int.tdiv ((a.end_ - a.beg) - (-a.beg) % align) size
  · rw [arena_alloc_oom a mem size align count flags hchk]
    split <;> rfl
  · rw [arena_alloc_ok_fwd a mem size align count flags hchk hf]
    rfl

/-- The arena component of `applyAlloc` is the post-call arena. -/
lemma applyAlloc_fst (am : Arena × Mem) (q : Request) :
    (applyAlloc am q).1 =
      (arena_alloc am.1 am.2 q.size q.align q.count q.flags).arenaOf := by
  unfold applyAlloc
  cases arena_alloc am.1 am.2 q.size q.align q.count q.flags <;> rfl

/-- A sequence of allocations none of which uses `_PUSH_END` never moves the
limit. -/
lemma runAllocs_end_eq (qs : List Request) :
    ∀ am : Arena × Mem, (∀ q ∈ qs, q.flags.mask &&& PUSH_END.mask = 0) →
      (runAllocs am qs).1.end_ = am.1.end_ := by
  induction qs with
  | nil => intro am _; rfl
  | cons q qs ih =>
      intro am h
      have hq := h q (List.mem_cons_self q qs)
      have hrest : ∀ r ∈ qs, r.flags.mask &&& PUSH_END.mask = 0 :=
        fun r hr => h r (List.mem_cons_of_mem q hr)
      show (runAllocs (applyAlloc am q) qs).1.end_ = am.1.end_
      rw [ih (applyAlloc am q) hrest, applyAlloc_fst am q]
      exact arena_alloc_end_eq am.1 am.2 q.size q.align q.count q.flags hq

/-- C6 (corrected): `PushArena` followed by any sequence of allocations
against the tail that do not use `_PUSH_END`, followed by `PopArena`,
restores the parent's available space exactly.  An intervening `_PUSH_END`
allocation against the tail lowers the tail's limit, which `PopArena` then
adopts, so such allocations are excluded: see the counterexample. -/
theorem c6_roundtrip (a : Arena) (mem : Mem) (qs : List Request)
    (hbe : a.beg ≤ a.end_)
    (hq : ∀ q ∈ qs, q.flags.mask &&& PUSH_END.mask = 0) :
    (PopArena (PushArena a mem).2.1
        (runAllocs ((PushArena a mem).1, (PushArena a mem).2.2) qs).1).end_ -
      (PopArena (PushArena a mem).2.1
        (runAllocs ((PushArena a mem).1, (PushArena a mem).2.2) qs).1).beg
      = a.end_ - a.beg := by
  rw [PushArena_eq a mem hbe]
  have h1 := runAllocs_end_eq qs
    ({ a with beg := a.end_ - Int.tdiv (a.end_ - a.beg) 2 }, mem) hq
  simp only [PopArena] at h1 ⊢
  rw [h1]

/-- C6 witness: an 8-byte region, a pushed tail, one ordinary 2-byte
allocation against the tail, then pop: the available space is again 8. -/
theorem c6_roundtrip_witness :
    (PopArena (PushArena ⟨0, 8, false⟩ zmem).2.1
        (runAllocs ((PushArena ⟨0, 8, false⟩ zmem).1,
          (PushArena ⟨0, 8, false⟩ zmem).2.2) [⟨1, 1, 2, ⟨0⟩⟩]).1).end_ -
      (PopArena (PushArena ⟨0, 8, false⟩ zmem).2.1
        (runAllocs ((PushArena ⟨0, 8, false⟩ zmem).1,
          (PushArena ⟨0, 8, false⟩ zmem).2.2) [⟨1, 1, 2, ⟨0⟩⟩]).1).beg
      = (8:Int) - 0 :=
  c6_roundtrip ⟨0, 8, false⟩ zmem [⟨1, 1, 2, ⟨0⟩⟩] (by decide) (by decide)

/-- C6 counterexample: on an 8-byte region, pushing a tail and making one
`_PUSH_END` allocation of one byte against it leaves the popped parent with 7
available bytes, not the original 8 — the round trip is not exact for
arbitrary intervening allocations. -/
theorem c6_cx :
    ((PopArena (PushArena ⟨0, 8, false⟩ zmem).2.1
        (runAllocs ((PushArena ⟨0, 8, false⟩ zmem).1,
          (PushArena ⟨0, 8, false⟩ zmem).2.2) [⟨1, 1, 1, ⟨4⟩⟩]).1).end_ -
      (PopArena (PushArena ⟨0, 8, false⟩ zmem).2.1
        (runAllocs ((PushArena ⟨0, 8, false⟩ zmem).1,
          (PushArena ⟨0, 8, false⟩ zmem).2.2) [⟨1, 1, 1, ⟨4⟩⟩]).1).beg) = 7 ∧
    ((8:Int) - 0 = 8) ∧ ¬ ((7:Int) = 8) := by
  refine ⟨rfl, rfl, by decide⟩

/-- Reading inside the destination range of a `memmove` yields the source
byte at the same offset. -/
lemma memmove_in (m : Mem) (dst src n k : Int) (h0 : 0 ≤ k) (h1 : k < n) :
    memmove m dst src n (dst + k) = m (src + k) := by
  simp only [memmove]
  rw [if_pos ⟨by linarith, by linarith⟩]
  have h : src + (dst + k - dst) = src + k := by ring
  rw [h]

/-- Reading outside the destination range of a `memmove` is unaffected. -/
lemma memmove_out (m : Mem) (dst src n x : Int) (h : x < dst ∨ dst + n ≤ x) :
    memmove m dst src n x = m x := by
  simp only [memmove]
  rcases h with h | h
  · exact if_neg (fun hc => absurd hc.1 (not_le.mpr h))
  · exact if_neg (fun hc => absurd hc.2 (not_lt.mpr h))

/-- With `_NO_INIT` set, a successful `arena_alloc` does not touch memory. -/
lemma arena_alloc_ok_noinit_mem (a : Arena) (mem : Mem) (size align count : Int)
    (flags : ArenaFlag) (hni : flags.mask &&& NO_INIT.mask ≠ 0)
    (p0 : Int) (a0 : Arena) (m0 : Mem)
    (hA : arena_alloc a mem size align count flags = .ok p0 a0 m0) : m0 = mem := by
  by_cases hchk : count > Int.tdiv ((a.end_ - a.beg) - (-a.beg) % align) size
  · rw [arena_alloc_oom a mem size align count flags hchk] at hA
    split at hA <;> exact AllocResult.noConfusion hA
  · by_cases hf : flags.mask &&& PUSH_END.mask ≠ 0
    · rw [arena_alloc_ok_push a mem size align count flags hchk hf] at hA
      injection hA with h1 h2 h3
      rw [← h3, if_pos hni]
    · rw [arena_alloc_ok_fwd a mem size align count flags hchk (not_ne_iff.mp hf)] at hA
      injection hA with h1 h2 h3
      rw [← h3, if_pos hni]

/-- Behaviour of `slice_grow` when it returns (no escape), split along the
three growth cases of the source. -/
lemma slice_grow_spec (s : Slice) (size align : Int) (a : Arena) (mem : Mem)
    (s1 : Slice) (a1 : Arena) (m1 : Mem)
    (hG : slice_grow s size align a mem = .ok s1 a1 m1) :
    s1.len = s.len ∧
    (s.cap = 0 → s1.cap = 16) ∧
    (s.cap ≠ 0 → s.data = a.beg - size * s.cap →
      s1.cap = s.cap + 16 ∧ s1.data = s.data ∧ m1 = mem) ∧
    (s.cap ≠ 0 → s.data ≠ a.beg - size * s.cap →
      s1.cap = s.cap + Int.tdiv s.cap 2 ∧
      ∀ k, 0 ≤ k → k < size * s.len → m1 (s1.data + k) = mem (s.data + k)) := by
  simp only [slice_grow] at hG
  by_cases hc0 : s.cap = 0
  · rw [if_pos hc0] at hG
    rcases hA : arena_alloc a mem size align 16 NO_INIT with ⟨p0, a0, m0⟩ | ⟨a0, m0⟩ | ⟨a0, m0⟩ <;>
      rw [hA] at hG
    · injection hG with h1 h2 h3
      rw [← h1]
      exact ⟨rfl, fun _ => rfl, fun hne _ => absurd hc0 hne, fun hne _ => absurd hc0 hne⟩
    · injection hG with h1 h2 h3
      rw [← h1]
      exact ⟨rfl, fun _ => rfl, fun hne _ => absurd hc0 hne, fun hne _ => absurd hc0 hne⟩
    · exact GrowResult.noConfusion hG
  · rw [if_neg hc0] at hG
    by_cases hadj : s.data = a.beg - size * s.cap
    · rw [if_pos hadj] at hG
      rcases hA : arena_alloc a mem size 1 16 NO_INIT with ⟨p0, a0, m0⟩ | ⟨a0, m0⟩ | ⟨a0, m0⟩ <;>
        rw [hA] at hG
      · have hm0 : m0 = mem :=
          arena_alloc_ok_noinit_mem a mem size 1 16 NO_INIT (by decide) p0 a0 m0 hA
        injection hG with h1 h2 h3
        rw [← h1]
        exact ⟨rfl, fun h => absurd h hc0, fun _ _ => ⟨rfl, rfl, by rw [← h3, hm0]⟩,
          fun _ hne => absurd hadj hne⟩
      · obtain ⟨-, hm0⟩ := arena_alloc_oomNull_eq a mem size 1 16 NO_INIT a0 m0 hA
        injection hG with h1 h2 h3
        rw [← h1]
        exact ⟨rfl, fun h => absurd h hc0, fun _ _ => ⟨rfl, rfl, by rw [← h3, hm0]⟩,
          fun _ hne => absurd hadj hne⟩
      · exact GrowResult.noConfusion hG
    · rw [if_neg hadj] at hG
      rcases hA : arena_alloc a mem size align (s.cap + Int.tdiv s.cap 2) NO_INIT with
        ⟨p0, a0, m0⟩ | ⟨a0, m0⟩ | ⟨a0, m0⟩ <;> rw [hA] at hG
      · have hm0 : m0 = mem :=
          arena_alloc_ok_noinit_mem a mem size align (s.cap + Int.tdiv s.cap 2) NO_INIT
            (by decide) p0 a0 m0 hA
        injection hG with h1 h2 h3
        rw [← h1]
        refine ⟨rfl, fun h => absurd h hc0, fun _ hadj2 => absurd hadj2 hadj,
          fun _ _ => ⟨rfl, fun k hk0 hk1 => ?_⟩⟩
        rw [← h3]
        show memmove m0 p0 s.data (size * s.len) (p0 + k) = mem (s.data + k)
        rw [memmove_in m0 p0 s.data (size * s.len) k hk0 hk1, hm0]
      · obtain ⟨-, hm0⟩ :=
          arena_alloc_oomNull_eq a mem size align (s.cap + Int.tdiv s.cap 2) NO_INIT a0 m0 hA
        injection hG with h1 h2 h3
        rw [← h1]
        refine ⟨rfl, fun h => absurd h hc0, fun _ hadj2 => absurd hadj2 hadj,
          fun _ _ => ⟨rfl, fun k hk0 hk1 => ?_⟩⟩
        rw [← h3]
        show memmove m0 0 s.data (size * s.len) (0 + k) = mem (s.data + k)
        rw [memmove_in m0 0 s.data (size * s.len) k hk0 hk1, hm0]
      · exact GrowResult.noConfusion hG

/-- C7 (confirmed): when `Push` is called with `len = cap`, growth follows
the three source cases — a fixed starter capacity of 16 elements when
`cap = 0`; an in-place extension by 16 elements with no copy (memory and data
pointer unchanged) when the cursor sits immediately after the data block; and
otherwise a relocation to a block of `cap + cap/2` elements that copies the
first `len` elements in order — and `Push` returns the slot at the old
length, with the previously stored bytes reachable unchanged through the
(possibly new) data pointer. -/
theorem c7_push_grow (s : Slice) (size align : Int) (a : Arena) (mem : Mem)
    (p : Int) (s' : Slice) (a' : Arena) (m' : Mem)
    (hlen : s.len = s.cap)
    (hok : Push s size align a mem = some (p, s', a', m')) :
    s'.len = s.len + 1 ∧ p = s'.data + size * s.len ∧
    (s.cap = 0 → s'.cap = 16) ∧
    (s.cap ≠ 0 → s.data = a.beg - size * s.cap →
      s'.cap = s.cap + 16 ∧ s'.data = s.data ∧ m' = mem) ∧
    (s.cap ≠ 0 → s.data ≠ a.beg - size * s.cap →
      s'.cap = s.cap + Int.tdiv s.cap 2 ∧
      ∀ k, 0 ≤ k → k < size * s.len → m' (s'.data + k) = mem (s.data + k)) := by
  have hcond : s.cap ≤ s.len := le_of_eq hlen.symm
  unfold Push at hok
  rw [if_pos hcond] at hok
  rcases hG : slice_grow s size align a mem with ⟨s1, a1, m1⟩ | ⟨a1, m1⟩ <;>
    rw [hG] at hok
  · simp only [Option.some.injEq, Prod.mk.injEq] at hok
    obtain ⟨hp, hs', ha', hm'⟩ := hok
    obtain ⟨hl, h1, h2, h3⟩ := slice_grow_spec s size align a mem s1 a1 m1 hG
    subst hp hs' ha' hm'
    refine ⟨?_, ?_, ?_, ?_, ?_⟩
    · show s1.len + 1 = s.len + 1
      rw [hl]
    · show s1.data + size * s1.len = s1.data + size * s.len
      rw [hl]
    · intro hc0
      show s1.cap = 16
      exact h1 hc0
    · intro hne hadj
      obtain ⟨hcap, hdata, hmem⟩ := h2 hne hadj
      exact ⟨hcap, hdata, hmem⟩
    · intro hne hadj
      obtain ⟨hcap, hbytes⟩ := h3 hne hadj
      exact ⟨hcap, hbytes⟩
  · cases hok

/-- C7 witness: a full slice of 16 one-byte elements whose block ends exactly
at the cursor grows in place: the data pointer stays, the capacity becomes
32, and the returned slot is at the old length 16. -/
theorem c7_push_grow_witness :
    (⟨0, 17, 32⟩ : Slice).len = (⟨0, 16, 16⟩ : Slice).len + 1 ∧
    (16 : Int) = (⟨0, 17, 32⟩ : Slice).data + 1 * 16 ∧
    (⟨0, 17, 32⟩ : Slice).cap = (⟨0, 16, 16⟩ : Slice).cap + 16 := by
  have h := c7_push_grow ⟨0, 16, 16⟩ 1 1 ⟨16, 100, false⟩ zmem 16 ⟨0, 17, 32⟩
    ⟨32, 100, false⟩ zmem rfl rfl
  exact ⟨h.1, h.2.1, (h.2.2.2.1 (by decide) (by decide)).1⟩

/-- A byte allocation (`size = 1`, `align = 1`, `_NO_INIT`) that fits simply
bumps the cursor and returns it; memory is untouched. -/
lemma alloc_bytes (a : Arena) (mem : Mem) (n : Int) (h : n ≤ a.end_ - a.beg) :
    arena_alloc a mem 1 1 n NO_INIT = .ok a.beg { a with beg := a.beg + n } mem := by
  have hchk : ¬ n > Int.tdiv ((a.end_ - a.beg) - (-a.beg) % 1) 1 := by
    simp only [Int.emod_one, sub_zero, Int.tdiv_one]
    exact not_lt.mpr h
  rw [arena_alloc_ok_fwd a mem 1 1 n NO_INIT hchk (by decide)]
  rw [if_pos (by decide : NO_INIT.mask &&& NO_INIT.mask ≠ 0)]
  simp [Int.emod_one]

/-- The fast path of `astrclone`: an empty string, or one ending exactly at
the cursor, is returned unchanged. -/
lemma astrclone_fast (a : Arena) (mem : Mem) (s : astr)
    (h : s.len = 0 ∨ s.data + s.len = a.beg) :
    astrclone a mem s = some (s, a, mem) := by
  unfold astrclone
  rw [if_pos h]

/-- The copying path of `astrclone`: a non-empty string not at the cursor is
copied to the cursor, which advances by its length. -/
lemma astrclone_slow (a : Arena) (mem : Mem) (s : astr)
    (h1 : ¬ (s.len = 0 ∨ s.data + s.len = a.beg))
    (hsp : s.len ≤ a.end_ - a.beg) :
    astrclone a mem s =
      some (⟨a.beg, s.len⟩, { a with beg := a.beg + s.len },
        memmove mem a.beg s.data s.len) := by
  unfold astrclone
  rw [if_neg h1, alloc_bytes a mem s.len hsp]

/-- C8 (corrected): for strings lying inside the allocated region (below the
cursor), with room for both, `astrconcat` returns a string of length
`head.len + tail.len` whose bytes are head's bytes followed by tail's bytes —
provided that when `head` is non-empty, `tail` does not itself end at the
cursor (in that aliasing corner `astrclone` skips the copy and the result's
trailing bytes are whatever lies at the old cursor: see the counterexample).
When `head` is empty the call returns `tail` directly if `tail` is non-empty
and ends at the cursor, and otherwise returns `astrclone` of `tail`. -/
theorem c8_concat (a : Arena) (mem : Mem) (head tail : astr)
    (hh : 0 ≤ head.len) (ht : 0 ≤ tail.len)
    (hhr : head.data + head.len ≤ a.beg)
    (htr : tail.data + tail.len ≤ a.beg)
    (hsp : a.beg + head.len + tail.len ≤ a.end_)
    (hcorner : head.len = 0 ∨ tail.len = 0 ∨ tail.data + tail.len ≠ a.beg) :
    (astrconcat a mem head tail).isSome = true ∧
    (∀ r a' m', astrconcat a mem head tail = some (r, a', m') →
      r.len = head.len + tail.len ∧
      (∀ i, 0 ≤ i → i < head.len → m' (r.data + i) = mem (head.data + i)) ∧
      (∀ j, 0 ≤ j → j < tail.len → m' (r.data + head.len + j) = mem (tail.data + j))) ∧
    (head.len = 0 → tail.len ≠ 0 → tail.data + tail.len = a.beg →
      astrconcat a mem head tail = some (tail, a, mem)) ∧
    (head.len = 0 → (tail.len = 0 ∨ tail.data + tail.len ≠ a.beg) →
      astrconcat a mem head tail = astrclone a mem tail) := by
  by_cases hH0 : head.len = 0
  · have hA : astrconcat a mem head tail =
        (if tail.len ≠ 0 ∧ tail.data + tail.len = a.beg then some (tail, a, mem)
         else astrclone a mem tail) := by
      unfold astrconcat
      rw [if_pos hH0]
    by_cases hT : tail.len ≠ 0 ∧ tail.data + tail.len = a.beg
    · rw [if_pos hT] at hA
      refine ⟨by rw [hA]; rfl, ?_, fun _ _ _ => hA, ?_⟩
      · intro r a' m' hEq
        rw [hA] at hEq
        simp only [Option.some.injEq, Prod.mk.injEq] at hEq
        obtain ⟨h1, h2, h3⟩ := hEq
        subst h1 h2 h3
        refine ⟨by omega, ?_, ?_⟩
        · intro i hi0 hi1
          exact absurd hi1 (by omega)
        · intro j hj0 hj1
          congr 1
          omega
      · intro _ hor
        rcases hor with h | h
        · exact absurd h hT.1
        · exact absurd hT.2 h
    · rw [if_neg hT] at hA
      push_neg at hT
      have hcon3 : head.len = 0 → tail.len ≠ 0 → tail.data + tail.len = a.beg →
          astrconcat a mem head tail = some (tail, a, mem) :=
        fun _ hne heq => absurd heq (hT hne)
      by_cases hTfast : tail.len = 0 ∨ tail.data + tail.len = a.beg
      · have hc := astrclone_fast a mem tail hTfast
        have hA2 := hA.trans hc
        refine ⟨by rw [hA2]; rfl, ?_, hcon3, fun _ _ => hA⟩
        intro r a' m' hEq
        rw [hA2] at hEq
        simp only [Option.some.injEq, Prod.mk.injEq] at hEq
        obtain ⟨h1, h2, h3⟩ := hEq
        subst h1 h2 h3
        refine ⟨by omega, ?_, ?_⟩
        · intro i hi0 hi1
          exact absurd hi1 (by omega)
        · intro j hj0 hj1
          congr 1
          omega
      · have hc := astrclone_slow a mem tail hTfast (by omega)
        have hA2 := hA.trans hc
        refine ⟨by rw [hA2]; rfl, ?_, hcon3, fun _ _ => hA⟩
        intro r a' m' hEq
        rw [hA2] at hEq
        simp only [Option.some.injEq, Prod.mk.injEq] at hEq
        obtain ⟨h1, h2, h3⟩ := hEq
        subst h1 h2 h3
        refine ⟨by show tail.len = head.len + tail.len; omega, ?_, ?_⟩
        · intro i hi0 hi1
          exact absurd hi1 (by omega)
        · intro j hj0 hj1
          show memmove mem a.beg tail.data tail.len (a.beg + head.len + j)
            = mem (tail.data + j)
          rw [show a.beg + head.len + j = a.beg + j from by omega]
          exact memmove_in mem a.beg tail.data tail.len j hj0 hj1
  · have hTc : tail.len = 0 ∨ tail.data + tail.len ≠ a.beg := hcorner.resolve_left hH0
    have hhpos : 0 < head.len := lt_of_le_of_ne hh (Ne.symm hH0)
    obtain ⟨ret, a1, m1, hstep, hretlen, hrettip, hend1, havail1, hheadbytes,
        htailpres, htailtip⟩ :
        ∃ (ret : astr) (a1 : Arena) (m1 : Mem),
          (astrconcat a mem head tail =
            match astrclone a1 m1 tail with
            | none => none
            | some (t2, a2, m2) => some ({ ret with len := ret.len + t2.len }, a2, m2)) ∧
          ret.len = head.len ∧ ret.data + head.len = a1.beg ∧ a1.end_ = a.end_ ∧
          tail.len ≤ a1.end_ - a1.beg ∧
          (∀ i, 0 ≤ i → i < head.len → m1 (ret.data + i) = mem (head.data + i)) ∧
          (∀ j, 0 ≤ j → j < tail.len → m1 (tail.data + j) = mem (tail.data + j)) ∧
          (tail.len = 0 ∨ tail.data + tail.len ≠ a1.beg) := by
      by_cases hat : head.data + head.len = a.beg
      · refine ⟨head, a, mem, ?_, rfl, hat, rfl, by linarith, fun i _ _ => rfl,
          fun j _ _ => rfl, hTc⟩
        unfold astrconcat
        rw [if_neg hH0, if_neg (not_ne_iff.mpr hat)]
      · have hslowh := astrclone_slow a mem head (fun hor => hor.elim hH0 hat)
          (by linarith)
        refine ⟨⟨a.beg, head.len⟩, { a with beg := a.beg + head.len },
          memmove mem a.beg head.data head.len, ?_, rfl, rfl, rfl, ?_, ?_, ?_, ?_⟩
        · unfold astrconcat
          rw [if_neg hH0, if_pos hat, hslowh]
        · show tail.len ≤ a.end_ - (a.beg + head.len)
          linarith
        · intro i h0 h1
          exact memmove_in mem a.beg head.data head.len i h0 h1
        · intro j h0 h1
          exact memmove_out mem a.beg head.data head.len (tail.data + j)
            (Or.inl (by linarith))
        · right
          intro hEq
          have hEq2 : tail.data + tail.len = a.beg + head.len := hEq
          linarith
    by_cases hT0 : tail.len = 0
    · have hct := astrclone_fast a1 m1 tail (Or.inl hT0)
      rw [hct] at hstep
      have hstep2 : astrconcat a mem head tail =
          some ({ ret with len := ret.len + tail.len }, a1, m1) := hstep
      refine ⟨by rw [hstep2]; rfl, ?_, fun h => absurd h hH0, fun h => absurd h hH0⟩
      intro r a' m' hEq
      rw [hstep2] at hEq
      simp only [Option.some.injEq, Prod.mk.injEq] at hEq
      obtain ⟨h1, h2, h3⟩ := hEq
      subst h1 h2 h3
      refine ⟨?_, ?_, ?_⟩
      · show ret.len + tail.len = head.len + tail.len
        rw [hretlen]
      · intro i h0 h1
        exact hheadbytes i h0 h1
      · intro j hj0 hj1
        exact absurd hj1 (by omega)
    · have hnt : ¬ (tail.len = 0 ∨ tail.data + tail.len = a1.beg) := by
        rintro (h | h)
        · exact hT0 h
        · rcases htailtip with h' | h'
          · exact hT0 h'
          · exact h' h
      have hct := astrclone_slow a1 m1 tail hnt havail1
      rw [hct] at hstep
      have hstep2 : astrconcat a mem head tail =
          some ({ ret with len := ret.len + tail.len },
            { a1 with beg := a1.beg + tail.len },
            memmove m1 a1.beg tail.data tail.len) := hstep
      refine ⟨by rw [hstep2]; rfl, ?_, fun h => absurd h hH0, fun h => absurd h hH0⟩
      intro r a' m' hEq
      rw [hstep2] at hEq
      simp only [Option.some.injEq, Prod.mk.injEq] at hEq
      obtain ⟨h1, h2, h3⟩ := hEq
      subst h1 h2 h3
      refine ⟨?_, ?_, ?_⟩
      · show ret.len + tail.len = head.len + tail.len
        rw [hretlen]
      · intro i h0 h1
        show memmove m1 a1.beg tail.data tail.len (ret.data + i) = mem (head.data + i)
        rw [memmove_out m1 a1.beg tail.data tail.len (ret.data + i)
          (Or.inl (by linarith [hrettip]))]
        exact hheadbytes i h0 h1
      · intro j hj0 hj1
        show memmove m1 a1.beg tail.data tail.len (ret.data + head.len + j)
          = mem (tail.data + j)
        rw [show ret.data + head.len + j = a1.beg + j from by rw [hrettip]]
        rw [memmove_in m1 a1.beg tail.data tail.len j hj0 hj1]
        exact htailpres j hj0 hj1

/-- C8 witness: concatenating the 2-byte strings at 0 and 5 inside a region
with cursor 10 succeeds. -/
theorem c8_concat_witness :
    (astrconcat ⟨10, 20, false⟩ idmem ⟨0, 2⟩ ⟨5, 2⟩).isSome = true :=
  (c8_concat ⟨10, 20, false⟩ idmem ⟨0, 2⟩ ⟨5, 2⟩ (by decide) (by decide)
    (by decide) (by decide) (by decide) (Or.inr (Or.inr (by decide)))).1

/-- C8 counterexample: cursor at 2, `head = [0, 2)` ends at the cursor and
`tail = [1, 2)` also ends at the cursor (both non-empty).  `astrconcat`
returns length 3 without copying anything, so the result's third byte is the
byte at address 2 (the old cursor, value 2 under `idmem`), not tail's byte
(address 1, value 1): the result is not head's bytes followed by tail's. -/
theorem c8_cx :
    astrconcat ⟨2, 10, false⟩ idmem ⟨0, 2⟩ ⟨1, 1⟩
      = some (⟨0, 3⟩, ⟨2, 10, false⟩, idmem) ∧
    idmem (0 + 2) = 2 ∧ idmem (1 + 0) = 1 ∧ (2 : Nat) ≠ 1 := by
  refine ⟨rfl, rfl, rfl, by decide⟩

/-- C10 (confirmed): the copying path of `astrclone` (non-empty input not at
the cursor) reproduces the input's original bytes at the destination even
when the ranges overlap, and the relocating case of `slice_grow` preserves
the first `len` elements' bytes likewise — both copies are `memmove`
semantics reading the pre-call memory (`astrclone` only uses `memcpy` under
its disjointness guard). -/
theorem c10_overlap_copy :
    (∀ (a : Arena) (mem : Mem) (s : astr) (s2 : astr) (a' : Arena) (m' : Mem),
      ¬ (s.len = 0 ∨ s.data + s.len = a.beg) →
      astrclone a mem s = some (s2, a', m') →
      s2.len = s.len ∧
      ∀ i, 0 ≤ i → i < s.len → m' (s2.data + i) = mem (s.data + i)) ∧
    (∀ (sl : Slice) (size align : Int) (b : Arena) (memb : Mem) (s' : Slice)
        (b' : Arena) (m'' : Mem),
      sl.cap ≠ 0 → sl.data ≠ b.beg - size * sl.cap →
      slice_grow sl size align b memb = .ok s' b' m'' →
      ∀ k, 0 ≤ k → k < size * sl.len → m'' (s'.data + k) = memb (sl.data + k)) := by
  constructor
  · intro a mem s s2 a' m' hne hEq
    unfold astrclone at hEq
    rw [if_neg hne] at hEq
    rcases hA : arena_alloc a mem 1 1 s.len NO_INIT with ⟨p0, a0, m0⟩ | ⟨a0, m0⟩ | ⟨a0, m0⟩ <;>
      rw [hA] at hEq
    · have hm0 : m0 = mem := arena_alloc_ok_noinit_mem a mem 1 1 s.len NO_INIT
        (by decide) p0 a0 m0 hA
      simp only [Option.some.injEq, Prod.mk.injEq] at hEq
      obtain ⟨h1, h2, h3⟩ := hEq
      subst h1 h2 h3
      refine ⟨rfl, fun i h0 h1 => ?_⟩
      show memmove m0 p0 s.data s.len (p0 + i) = mem (s.data + i)
      rw [memmove_in m0 p0 s.data s.len i h0 h1, hm0]
    · obtain ⟨-, hm0⟩ := arena_alloc_oomNull_eq a mem 1 1 s.len NO_INIT a0 m0 hA
      simp only [Option.some.injEq, Prod.mk.injEq] at hEq
      obtain ⟨h1, h2, h3⟩ := hEq
      subst h1 h2 h3
      refine ⟨rfl, fun i h0 h1 => ?_⟩
      show memmove m0 0 s.data s.len (0 + i) = mem (s.data + i)
      rw [memmove_in m0 0 s.data s.len i h0 h1, hm0]
    · exact Option.noConfusion hEq
  · intro sl size align b memb s' b' m'' hc0 hadj hG k hk0 hk1
    exact ((slice_grow_spec sl size align b memb s' b' m'' hG).2.2.2 hc0 hadj).2
      k hk0 hk1

/-- C10 witness: cloning the 3-byte string at 5 into a region whose cursor is
4 copies into the overlapping range `[4, 7)`; the three copied bytes equal
the source's original bytes 5, 6, 7 under `idmem`. -/
theorem c10_overlap_copy_witness :
    memmove idmem 4 5 3 (4 + 0) = idmem (5 + 0) ∧
    memmove idmem 4 5 3 (4 + 1) = idmem (5 + 1) ∧
    memmove idmem 4 5 3 (4 + 2) = idmem (5 + 2) := by
  have h := (c10_overlap_copy.1 ⟨4, 100, false⟩ idmem ⟨5, 3⟩ ⟨4, 3⟩
    ⟨7, 100, false⟩ (memmove idmem 4 5 3) (by decide) rfl).2
  exact ⟨h 0 (by decide) (by decide), h 1 (by decide) (by decide),
    h 2 (by decide) (by decide)⟩
